import Mathlib

set_option maxHeartbeats 2000000
set_option linter.unusedVariables false

namespace Spiderfire

/-- Colour values of the colored crate, as consumed by the formatter theme. -/
inductive Color where
  | black
  | red
  | green
  | yellow
  | blue
  | magenta
  | cyan
  | white
deriving DecidableEq, Repr

/-- One fragment written to the formatter: its text and the colour it was wrapped in,
none when written uncoloured. Colour-stripped comparison concatenates the text fields. -/
structure Chunk where
  text : String
  colour : Option Color
deriving DecidableEq, Repr

/-- The output of one render: the sequence of written fragments. -/
abbrev Output := List Chunk

/-- Concatenation of the text of every fragment: the output with colour codes stripped. -/
def stripped : Output → String
  | [] => ""
  | c :: rest => c.text ++ stripped rest

/-- Modelled from the spec: the category-to-colour theme map of the missing Config
module; only the object colour is consumed by the code under verification. -/
structure Colours where
  object : Color
deriving DecidableEq, Repr

/-- Modelled from the spec: the rendering configuration record of the missing Config
module, with the fields the spec lists in its data model. -/
structure Config where
  depth : Nat
  indentation : Nat
  multiline : Bool
  iteration : Nat
  colours : Colours
  quoted : Bool
deriving DecidableEq, Repr

/-- Modelled from the spec: the Config builder for the depth field, copying the record. -/
def Config.withDepth (cfg : Config) (d : Nat) : Config := { cfg with depth := d }

/-- Modelled from the spec: the Config builder for the quoted flag, copying the record. -/
def Config.withQuoted (cfg : Config) (q : Bool) : Config := { cfg with quoted := q }

/-- Modelled from the spec: the indent unit of the missing format module. -/
def INDENT : String := "  "

/-- Modelled from the spec: the line separator of the missing format module. -/
def NEWLINE : String := "\n"

/-- Repetition of a string, mirroring the repeat method on str in Rust. -/
def strRepeat (s : String) (n : Nat) : String := String.join (List.replicate n s)

/-- The builtin class tags of the engine (mozjs ESClass) that the dispatcher matches on.
The constructors past Other stand for the remaining engine classes, which the source
routes through its final catch-all arm. -/
inductive ESClass where
  | Boolean
  | Number
  | String
  | BigInt
  | Array
  | Date
  | Promise
  | RegExp
  | Function
  | ArrayBuffer
  | Error
  | Object
  | Other
  | SharedArrayBuffer
  | Set
  | Map
  | Arguments
deriving DecidableEq, Repr

/-- The scalar element type tags of the engine (mozjs Type) that the typed-array probe
matches on. The constructors past Uint8Clamped are the tags the nine-way match in the
source does not name, which break out to the class-object renderer. -/
inductive TypeKind where
  | Int8
  | Uint8
  | Int16
  | Uint16
  | Int32
  | Uint32
  | Float32
  | Float64
  | Uint8Clamped
  | BigInt64
  | BigUint64
  | Int64
  | Simd128
  | MaxTypedArrayViewType
deriving DecidableEq, Repr

/-- The element kinds of the typed-array renderer: one per concrete typed-array wrapper
the dispatcher narrows a view to (Int8Array through ClampedUint8Array in the source). -/
inductive ElementKind where
  | int8
  | uint8
  | int16
  | uint16
  | int32
  | uint32
  | float32
  | float64
  | clampedUint8
deriving DecidableEq, Repr

/-- The element-kind dispatch of the Other arm in the source: the nine named view type
tags map to the matching typed-array wrapper, every other tag breaks out of the probe. -/
def viewElementKind : TypeKind → Option ElementKind
  | TypeKind.Int8 => some ElementKind.int8
  | TypeKind.Uint8 => some ElementKind.uint8
  | TypeKind.Int16 => some ElementKind.int16
  | TypeKind.Uint16 => some ElementKind.uint16
  | TypeKind.Int32 => some ElementKind.int32
  | TypeKind.Uint32 => some ElementKind.uint32
  | TypeKind.Float32 => some ElementKind.float32
  | TypeKind.Float64 => some ElementKind.float64
  | TypeKind.Uint8Clamped => some ElementKind.clampedUint8
  | _ => none

/-- Printable name of an element kind, used by the modelled typed-array renderer token. -/
def elementKindName : ElementKind → String
  | ElementKind.int8 => "Int8"
  | ElementKind.uint8 => "Uint8"
  | ElementKind.int16 => "Int16"
  | ElementKind.uint16 => "Uint16"
  | ElementKind.int32 => "Int32"
  | ElementKind.uint32 => "Uint32"
  | ElementKind.float32 => "Float32"
  | ElementKind.float64 => "Float64"
  | ElementKind.clampedUint8 => "ClampedUint8"

/-- The element kinds enumerated, in the order of the branches of the source match. -/
def elementKindList : List ElementKind :=
  [ElementKind.int8, ElementKind.uint8, ElementKind.int16, ElementKind.uint16,
   ElementKind.int32, ElementKind.uint32, ElementKind.float32, ElementKind.float64,
   ElementKind.clampedUint8]

/-- Shape of a runtime object as the dispatcher observes it: its builtin class, which
type narrowings succeed on it, the typed-array view probe result, and the source text
the engine would print for it. -/
structure Shape where
  builtinClass : ESClass
  asArray : Bool
  asDate : Bool
  asPromise : Bool
  asRegExp : Bool
  asFunction : Bool
  asArrayBuffer : Bool
  exceptionIsError : Bool
  view : Option TypeKind
  source : String
deriving DecidableEq, Repr

/-- A runtime value: a primitive, or an object given by its observable shape and its
enumerable entries in enumeration order. -/
inductive JSValue where
  | vbool (b : Bool)
  | vnum (n : Int)
  | vstr (s : String)
  | vobj (shape : Shape) (entries : List (String × JSValue))

/-- Modelled from the spec: the external boxed-primitive renderer, an opaque sibling
renderer represented at this boundary by a distinctive token. -/
def format_boxed (cfg : Config) : Output := [⟨"[Boxed]", none⟩]

/-- Modelled from the spec: the external array renderer, opaque at this boundary. -/
def format_array (cfg : Config) : Output := [⟨"[Array]", none⟩]

/-- Modelled from the spec: the external date renderer, opaque at this boundary. -/
def format_date (cfg : Config) : Output := [⟨"[Date]", none⟩]

/-- Modelled from the spec: the external promise renderer, opaque at this boundary. -/
def format_promise (cfg : Config) : Output := [⟨"[Promise]", none⟩]

/-- Modelled from the spec: the external regexp renderer, opaque at this boundary. -/
def format_regexp (cfg : Config) : Output := [⟨"[RegExp]", none⟩]

/-- Modelled from the spec: the external function renderer, opaque at this boundary. -/
def format_function (cfg : Config) : Output := [⟨"[Function]", none⟩]

/-- Modelled from the spec: the external raw byte buffer renderer, opaque here. -/
def format_array_buffer (cfg : Config) : Output := [⟨"[ArrayBuffer]", none⟩]

/-- Modelled from the spec: the external class-object renderer the Other arm falls
through to, opaque at this boundary. -/
def format_class_object (cfg : Config) : Output := [⟨"[ClassObject]", none⟩]

/-- Modelled from the spec: the external key formatter; identifier keys print bare, and
quoting rules for other keys belong to that collaborator, outside this excerpt. -/
def format_key (cfg : Config) (key : String) : Output := [⟨key, none⟩]

/-- Modelled from the spec: the formatted text of a narrowed error exception, which the
Error arm writes directly; opaque at this boundary. -/
def error_format (sh : Shape) : String := "[Error]"

/-- Modelled from the spec: the external generic typed-array renderer, parameterized by
the element kind of the view; one distinctive token per kind. -/
def format_typed_array (kind : ElementKind) (cfg : Config) : Output :=
  [⟨"[" ++ elementKindName kind ++ "Array]", none⟩]

/-- Embeds write_remaining from src/ion/src/format/object.rs: the elision marker writer
for a truncated enumeration. The optional inner string is written first uncoloured; the
marker is followed by a comma when the inner string is present, by a space otherwise. -/
def write_remaining (remaining : Nat) (inner : Option String) (colour : Color) : Output :=
  if remaining > 0 then
    (match inner with
     | some s => [⟨s, none⟩]
     | none => [])
    ++ (match compare remaining 1 with
        | Ordering.eq => [⟨"... 1 more item", some colour⟩]
        | Ordering.gt =>
          [⟨"...", some colour⟩, ⟨" ", none⟩, ⟨toString remaining, some colour⟩,
           ⟨" ", none⟩, ⟨"more items", some colour⟩]
        | Ordering.lt => [])
    ++ (if inner.isSome then [⟨",", some colour⟩] else [⟨" ", none⟩])
  else []

/-- Size of a prefix of a list is bounded by the size of the list. -/
theorem sizeOf_take_le {α : Type} [SizeOf α] (l : List α) (n : Nat) :
    sizeOf (l.take n) ≤ sizeOf l := by
  induction l generalizing n with
  | nil => cases n <;> simp
  | cons a t ih =>
    cases n with
    | zero => simp only [List.take_zero, List.nil.sizeOf_spec, List.cons.sizeOf_spec]; omega
    | succ m =>
      simp only [List.take_succ_cons, List.cons.sizeOf_spec]
      have h := ih m
      omega

mutual

/-- Embeds the Display implementation of ObjectDisplay from
src/ion/src/format/object.rs: the top-level object dispatcher. It matches the builtin
class, routes each boxed or narrowed class to its sibling renderer, routes Object to the
plain-object renderer, probes Other for a typed-array view with a nine-way element type
match falling through to the class-object renderer, and writes the engine source text in
the catch-all arm. A failed unwrap of a narrowing, and the unreachable arm of the Error
match, abort the process in the source; the embedding returns none there. -/
def object_display (cfg : Config) (sh : Shape) (entries : List (String × JSValue)) :
    Option Output :=
  match sh.builtinClass with
  | ESClass.Boolean => some (format_boxed cfg)
  | ESClass.Number => some (format_boxed cfg)
  | ESClass.String => some (format_boxed cfg)
  | ESClass.BigInt => some (format_boxed cfg)
  | ESClass.Array => if sh.asArray then some (format_array cfg) else none
  | ESClass.Date => if sh.asDate then some (format_date cfg) else none
  | ESClass.Promise => if sh.asPromise then some (format_promise cfg) else none
  | ESClass.RegExp => if sh.asRegExp then some (format_regexp cfg) else none
  | ESClass.Function => if sh.asFunction then some (format_function cfg) else none
  | ESClass.ArrayBuffer => if sh.asArrayBuffer then some (format_array_buffer cfg) else none
  | ESClass.Error =>
    if sh.exceptionIsError then some [⟨error_format sh, none⟩] else none
  | ESClass.Object => plain_object_display cfg entries
  | ESClass.Other =>
    match sh.view with
    | some t =>
      match viewElementKind t with
      | some ek => some (format_typed_array ek cfg)
      | none => some (format_class_object cfg)
    | none => some (format_class_object cfg)
  | _ => some [⟨sh.source, none⟩]
termination_by (sizeOf entries, 4)

/-- Embeds the Display implementation of PlainObjectDisplay from
src/ion/src/format/object.rs: the generic object renderer. Below the depth cap of 4 it
enumerates up to iteration entries; an empty enumeration prints the empty-object token,
multiline mode prints one indented entry per line with a trailing comma, single-line
mode prints a space, every enumerated pair with a comma-space separator skipped at index
len - 1, then the elision marker for length - len entries; at depth 4 or more it prints
the fixed placeholder token. -/
def plain_object_display (cfg : Config) (entries : List (String × JSValue)) :
    Option Output :=
  let colour := cfg.colours.object
  if cfg.depth < 4 then
    let keys := entries.take cfg.iteration
    let length := keys.length
    if length = 0 then
      some [⟨"\x7b\x7d", some colour⟩]
    else if cfg.multiline then
      let inner := strRepeat INDENT (cfg.indentation + cfg.depth + 1)
      match multiline_entries cfg colour inner keys with
      | none => none
      | some body =>
        some (⟨"\x7b", some colour⟩ :: ⟨NEWLINE, none⟩ :: body
          ++ [⟨strRepeat INDENT (cfg.indentation + cfg.depth), none⟩, ⟨"\x7d", some colour⟩])
    else
      let len := min length 3
      match singleline_entries cfg colour len 0 keys with
      | none => none
      | some body =>
        some (⟨"\x7b", some colour⟩ :: ⟨" ", none⟩ :: body
          ++ write_remaining (length - len) none colour ++ [⟨"\x7d", some colour⟩])
  else
    some [⟨"[Object]", some colour⟩]
termination_by (sizeOf entries, 3)
decreasing_by
  all_goals
    have hle : sizeOf (List.take cfg.iteration entries) ≤ sizeOf entries :=
      sizeOf_take_le entries cfg.iteration
    exact hle.lt_or_eq.elim (fun h => Prod.Lex.left _ _ h)
      (fun h => h ▸ Prod.Lex.right _ (by omega))

/-- Embeds the multiline loop of PlainObjectDisplay: for each enumerated key, the inner
indent, the key-value pair, a coloured comma, and a newline. Returns none when a pair
write aborts. -/
def multiline_entries (cfg : Config) (colour : Color) (inner : String) :
    List (String × JSValue) → Option Output
  | [] => some []
  | (k, v) :: rest =>
    match write_key_value cfg k v with
    | none => none
    | some pair =>
      match multiline_entries cfg colour inner rest with
      | none => none
      | some restOut =>
        some (⟨inner, none⟩ :: pair ++ [⟨",", some colour⟩, ⟨NEWLINE, none⟩] ++ restOut)
termination_by keys => (sizeOf keys, 2)

/-- Embeds the single-line loop of PlainObjectDisplay: every enumerated key-value pair
in order, with a coloured comma and a space after each pair whose index differs from
len - 1. Returns none when a pair write aborts. -/
def singleline_entries (cfg : Config) (colour : Color) (len : Nat) (i : Nat) :
    List (String × JSValue) → Option Output
  | [] => some []
  | (k, v) :: rest =>
    match write_key_value cfg k v with
    | none => none
    | some pair =>
      match singleline_entries cfg colour len (i + 1) rest with
      | none => none
      | some restOut =>
        some (pair ++ (if i ≠ len - 1 then [⟨",", some colour⟩, ⟨" ", none⟩] else [])
          ++ restOut)
termination_by keys => (sizeOf keys, 2)

/-- Embeds write_key_value from src/ion/src/format/object.rs: the formatted key, a
coloured colon, a space, then the value rendered by the top-level formatter with depth
raised by one and the quoted flag set. -/
def write_key_value (cfg : Config) (key : String) (v : JSValue) : Option Output :=
  match format_value ((cfg.withDepth (cfg.depth + 1)).withQuoted true) v with
  | none => none
  | some valueOut =>
    some (format_key cfg key ++ ⟨":", some cfg.colours.object⟩ :: ⟨" ", none⟩ :: valueOut)
termination_by (sizeOf v, 1)

/-- Modelled from the spec: the top-level value formatter of the missing format module.
Primitives render as their native text, strings quoted when the quoted flag is set, per
the spec examples; object values dispatch through the embedded object dispatcher. -/
def format_value (cfg : Config) : JSValue → Option Output
  | JSValue.vbool b => some [⟨if b then "true" else "false", none⟩]
  | JSValue.vnum n => some [⟨toString n, none⟩]
  | JSValue.vstr s => some [⟨if cfg.quoted then "\"" ++ s ++ "\"" else s, none⟩]
  | JSValue.vobj sh entries => object_display cfg sh entries
termination_by v => (sizeOf v, 0)

end

/-- The category tag of a shape is matched by the shape: the narrowing the dispatcher
performs after matching that tag succeeds. Classes without a narrowing are consistent. -/
def shapeConsistent (sh : Shape) : Bool :=
  match sh.builtinClass with
  | ESClass.Array => sh.asArray
  | ESClass.Date => sh.asDate
  | ESClass.Promise => sh.asPromise
  | ESClass.RegExp => sh.asRegExp
  | ESClass.Function => sh.asFunction
  | ESClass.ArrayBuffer => sh.asArrayBuffer
  | ESClass.Error => sh.exceptionIsError
  | _ => true

mutual

/-- A value is deeply consistent when, at every object in it, the builtin class tag is
matched by the shape: the narrowing the dispatcher performs for that class succeeds. -/
def JSValue.consistent : JSValue → Bool
  | JSValue.vbool _ => true
  | JSValue.vnum _ => true
  | JSValue.vstr _ => true
  | JSValue.vobj sh entries => shapeConsistent sh && entriesConsistent entries
termination_by v => sizeOf v

/-- Deep consistency of every value of an entry list. -/
def entriesConsistent : List (String × JSValue) → Bool
  | [] => true
  | (k, v) :: rest => JSValue.consistent v && entriesConsistent rest
termination_by l => sizeOf l

end

/-- A native-backed object as the generated finalizer sees it: the reserved slot at the
parent prototype chain length, holding the wrapped native resource until taken. -/
structure NativeObject (A : Type) where
  reservedSlot : Option A
deriving DecidableEq, Repr

/-- Embeds the finalise operation generated by class_finalise in
src/ion-proc/src/class/operations.rs: it reads the reserved slot holding an optional
native resource and takes the value out, leaving none behind; the taken value is dropped
at once. The result is the object state after the call paired with the resource this
call dropped. -/
def finalise_operation {A : Type} (obj : NativeObject A) : NativeObject A × Option A :=
  ({ reservedSlot := none }, obj.reservedSlot)

/-- Marker for the function the generated operation table points at. -/
inductive HookRef where
  | finalise_op
deriving DecidableEq, Repr

/-- The operation table type of the engine (mozjs JSClassOps), each hook optional. -/
structure JSClassOps where
  addProperty : Option HookRef
  delProperty : Option HookRef
  enumerate : Option HookRef
  newEnumerate : Option HookRef
  resolve : Option HookRef
  mayResolve : Option HookRef
  finalize : Option HookRef
  call : Option HookRef
  construct : Option HookRef
  trace : Option HookRef
deriving DecidableEq, Repr

/-- Embeds the static OPERATIONS table generated by class_ops in
src/ion-proc/src/class/operations.rs: every hook none except finalize, which points at
the generated finalise operation. -/
def OPERATIONS : JSClassOps :=
  { addProperty := none
    delProperty := none
    enumerate := none
    newEnumerate := none
    resolve := none
    mayResolve := none
    finalize := some HookRef.finalise_op
    call := none
    construct := none
    trace := none }

/-- Stripping distributes over concatenation of outputs. -/
@[simp]
theorem stripped_append (o1 o2 : Output) :
    stripped (o1 ++ o2) = stripped o1 ++ stripped o2 := by
  induction o1 with
  | nil => simp [stripped, String.empty_append]
  | cons c rest ih => simp [stripped, ih, String.append_assoc]

/-- A single-line configuration at depth 0 with a large iteration cap. -/
def cfg0 : Config :=
  { depth := 0, indentation := 0, multiline := false, iteration := 100,
    colours := { object := Color.white }, quoted := false }

/-- The object of the spec example: four numbered entries a through d. -/
def entriesABCD : List (String × JSValue) :=
  [("a", JSValue.vnum 1), ("b", JSValue.vnum 2), ("c", JSValue.vnum 3),
   ("d", JSValue.vnum 4)]

/-- A one-entry object. -/
def entriesA : List (String × JSValue) := [("a", JSValue.vnum 1)]

/-- C1: the claim says a single-line plain object with more than three enumerated keys
renders exactly three pairs followed by the elision marker, the spec example object
giving the text inside braces a: 1, b: 2, c: 3, then the marker. Evaluating the
embedded renderer on that object shows the code also renders the fourth pair, glued to
the third without a separator, and still prints the marker: the loop lacks the
truncation to len the separator logic and the marker both assume. -/
theorem c1_single_line_cap_bug :
    (plain_object_display cfg0 entriesABCD).map stripped
        = some "\x7b a: 1, b: 2, c: 3d: 4, ... 1 more item \x7d"
    ∧ (plain_object_display cfg0 entriesABCD).map stripped
        ≠ some "\x7b a: 1, b: 2, c: 3, ... 1 more item \x7d" := by
  have h : (plain_object_display cfg0 entriesABCD).map stripped
      = some "\x7b a: 1, b: 2, c: 3d: 4, ... 1 more item \x7d" := by
    simp [plain_object_display, singleline_entries, write_key_value, format_value,
      format_key, write_remaining, stripped, cfg0, entriesABCD, Config.withDepth,
      Config.withQuoted]
    rfl
  exact ⟨h, by rw [h]; decide⟩

/-- C5: the claim says a single-line plain object with one to three enumerated keys
ends in a space followed by the closing brace. Evaluating the embedded renderer on a
one-entry object shows no space is written before the closing brace: when nothing
remains the elision writer emits nothing, and no other space is written there. -/
theorem c5_singleline_trailing_space_bug :
    (plain_object_display cfg0 entriesA).map stripped = some "\x7b a: 1\x7d"
    ∧ (plain_object_display cfg0 entriesA).map stripped ≠ some "\x7b a: 1 \x7d" := by
  have h : (plain_object_display cfg0 entriesA).map stripped = some "\x7b a: 1\x7d" := by
    simp [plain_object_display, singleline_entries, write_key_value, format_value,
      format_key, write_remaining, stripped, cfg0, entriesA, Config.withDepth,
      Config.withQuoted]
    rfl
  exact ⟨h, by rw [h]; decide⟩

/-- C7: the remaining-count writer emits nothing for zero remaining items, the literal
singular marker for one, the plural marker with the count in plain decimal for more,
with the optional prefix written first and a trailing comma when the prefix is present,
a trailing space otherwise. -/
theorem c7_write_remaining_cases :
    ∀ (remaining : Nat) (inner : Option String) (colour : Color),
      (remaining = 0 → write_remaining remaining inner colour = [])
      ∧ (remaining = 1 → stripped (write_remaining remaining inner colour)
          = inner.getD "" ++ "... 1 more item" ++ (if inner.isSome then "," else " "))
      ∧ (1 < remaining → stripped (write_remaining remaining inner colour)
          = inner.getD ""
            ++ ("..." ++ " " ++ toString remaining ++ " " ++ "more items")
            ++ (if inner.isSome then "," else " ")) := by
  intro r inner colour
  refine ⟨?_, ?_, ?_⟩
  · intro h
    subst h
    simp [write_remaining]
  · intro h
    subst h
    cases inner <;>
      simp [write_remaining, stripped, String.append_assoc, String.append_empty,
        String.empty_append]
  · intro h
    have hcmp : compare r 1 = Ordering.gt := Nat.compare_eq_gt.mpr h
    have hr : r > 0 := by omega
    cases inner <;>
      simp [write_remaining, hcmp, hr, stripped, String.append_assoc,
        String.append_empty, String.empty_append] <;>
      rfl

/-- C7 witness: the three cases of the remaining-count writer at concrete counts, with
and without a prefix. -/
theorem c7_write_remaining_cases_witness :
    write_remaining 0 none Color.white = []
    ∧ stripped (write_remaining 1 (some "p") Color.white) = "p... 1 more item,"
    ∧ stripped (write_remaining 2 none Color.white) = "... 2 more items " := by
  refine ⟨(c7_write_remaining_cases 0 none Color.white).1 rfl, ?_, ?_⟩
  · have h := (c7_write_remaining_cases 1 (some "p") Color.white).2.1 rfl
    rw [h]
    decide
  · have h := (c7_write_remaining_cases 2 none Color.white).2.2 (by omega)
    rw [h]
    decide

/-- C10: the generated finalize operation drops the wrapped resource exactly once: on
an object whose reserved slot holds a resource it takes the resource out, leaving none
behind, and on any later call it finds none and drops nothing, so every call after the
first is a no-op on an already emptied slot; the generated operation table installs it
as the finalize hook and nothing else. -/
theorem c10_finalise_exactly_once :
    ∀ (A : Type) (r : A),
      finalise_operation { reservedSlot := some r }
          = ({ reservedSlot := none }, some r)
      ∧ finalise_operation ({ reservedSlot := none } : NativeObject A)
          = ({ reservedSlot := none }, none)
      ∧ (∀ obj : NativeObject A,
          (finalise_operation ((finalise_operation obj).1)).2 = none
          ∧ (finalise_operation ((finalise_operation obj).1)).1
              = { reservedSlot := none })
      ∧ OPERATIONS.finalize = some HookRef.finalise_op := by
  intro A r
  exact ⟨rfl, rfl, fun obj => ⟨rfl, rfl⟩, rfl⟩

/-- A single-line configuration at depth 4 with a large iteration cap. -/
def cfgD4 : Config :=
  { depth := 4, indentation := 0, multiline := false, iteration := 100,
    colours := { object := Color.white }, quoted := false }

/-- C4: at depth 4 or more the plain object renderer emits exactly the fixed
placeholder token in the object theme colour, whatever the entries, with no recursion;
below the cap an object whose enumeration is empty emits exactly the empty-object
token. -/
theorem c4_depth_cap_and_empty :
    ∀ (cfg : Config) (entries : List (String × JSValue)),
      (4 ≤ cfg.depth →
        plain_object_display cfg entries
          = some [⟨"[Object]", some cfg.colours.object⟩])
      ∧ (cfg.depth < 4 → (entries.take cfg.iteration).length = 0 →
        plain_object_display cfg entries
          = some [⟨"\x7b\x7d", some cfg.colours.object⟩]) := by
  intro cfg entries
  constructor
  · intro h
    have h2 : ¬ cfg.depth < 4 := by omega
    simp [plain_object_display, h2]
  · intro h1 h2
    simp [plain_object_display, h1, h2]

/-- C4 witness: the placeholder at depth 4 on a nonempty object, and the empty-object
token at depth 0 on an empty object. -/
theorem c4_depth_cap_and_empty_witness :
    plain_object_display cfgD4 entriesA = some [⟨"[Object]", some Color.white⟩]
    ∧ plain_object_display cfg0 [] = some [⟨"\x7b\x7d", some Color.white⟩] :=
  ⟨(c4_depth_cap_and_empty cfgD4 entriesA).1 (by decide),
   (c4_depth_cap_and_empty cfg0 []).2 (by decide) (by decide)⟩

/-- C8: the key-value writer renders the formatted key, a coloured colon and a space,
then the value through the top-level formatter, whose configuration carries the depth
raised by exactly one and the quoted flag set, for every key and value; the depth
passed down is strictly larger than the current depth, so depth never decreases on
descent. -/
theorem c8_write_key_value_recursion :
    ∀ (cfg : Config) (key : String) (v : JSValue),
      write_key_value cfg key v
        = (format_value ((cfg.withDepth (cfg.depth + 1)).withQuoted true) v).map
            (fun out => format_key cfg key
              ++ ⟨":", some cfg.colours.object⟩ :: ⟨" ", none⟩ :: out)
      ∧ ((cfg.withDepth (cfg.depth + 1)).withQuoted true).depth = cfg.depth + 1
      ∧ ((cfg.withDepth (cfg.depth + 1)).withQuoted true).quoted = true
      ∧ cfg.depth < ((cfg.withDepth (cfg.depth + 1)).withQuoted true).depth := by
  intro cfg key v
  refine ⟨?_, rfl, rfl, Nat.lt_succ_self cfg.depth⟩
  cases h : format_value ((cfg.withDepth (cfg.depth + 1)).withQuoted true) v <;>
    simp [write_key_value, h]

/-- Helper: with class Other and a view of one of the nine element kinds, the
dispatcher returns the typed-array rendering of that kind. -/
theorem object_display_other_typed (cfg : Config) (sh : Shape)
    (entries : List (String × JSValue)) (t : TypeKind) (ek : ElementKind)
    (hc : sh.builtinClass = ESClass.Other) (hv : sh.view = some t)
    (he : viewElementKind t = some ek) :
    object_display cfg sh entries = some (format_typed_array ek cfg) := by
  simp [object_display, hc, hv, he]

/-- Helper: with class Object the dispatcher returns the plain-object rendering. -/
theorem object_display_object_plain (cfg : Config) (sh : Shape)
    (entries : List (String × JSValue)) (hc : sh.builtinClass = ESClass.Object) :
    object_display cfg sh entries = plain_object_display cfg entries := by
  simp [object_display, hc]

/-- A shape classified Object that also carries a typed view. -/
def shObjectWithView : Shape :=
  { builtinClass := ESClass.Object, asArray := false, asDate := false,
    asPromise := false, asRegExp := false, asFunction := false,
    asArrayBuffer := false, exceptionIsError := false,
    view := some TypeKind.Int8, source := "" }

/-- C2 counterexample: a value classified Object that exposes a typed numeric view is
not probed and not dispatched to the typed-array renderer, contrary to the claim: the
dispatcher renders it as a plain object, because the view probe exists only in the
Other arm of the source. -/
theorem c2_object_not_probed_counterexample :
    shObjectWithView.builtinClass = ESClass.Object
    ∧ shObjectWithView.view = some TypeKind.Int8
    ∧ object_display cfg0 shObjectWithView [] = some [⟨"\x7b\x7d", some Color.white⟩]
    ∧ object_display cfg0 shObjectWithView []
        ≠ some (format_typed_array ElementKind.int8 cfg0) := by
  have h : object_display cfg0 shObjectWithView [] = some [⟨"\x7b\x7d", some Color.white⟩] := by
    simp [object_display, shObjectWithView, plain_object_display, cfg0]
  exact ⟨rfl, rfl, h, by rw [h]; decide⟩

/-- C2 amended: only values classified Other are probed for a typed numeric view; a
successful probe dispatches to the typed-array renderer of the view element kind, and a
failed probe, meaning no view or a view type outside the nine named tags, falls through
to the class-object renderer; values classified Object are rendered directly by the
plain-object renderer with no probe. -/
theorem c2_only_other_probed :
    ∀ (cfg : Config) (sh : Shape) (entries : List (String × JSValue)),
      (sh.builtinClass = ESClass.Other → ∀ t ek, sh.view = some t →
        viewElementKind t = some ek →
        object_display cfg sh entries = some (format_typed_array ek cfg))
      ∧ (sh.builtinClass = ESClass.Other → sh.view = none →
        object_display cfg sh entries = some (format_class_object cfg))
      ∧ (sh.builtinClass = ESClass.Other → ∀ t, sh.view = some t →
        viewElementKind t = none →
        object_display cfg sh entries = some (format_class_object cfg))
      ∧ (sh.builtinClass = ESClass.Object →
        object_display cfg sh entries = plain_object_display cfg entries) := by
  intro cfg sh entries
  refine ⟨?_, ?_, ?_, ?_⟩
  · intro hc t ek hv he
    exact object_display_other_typed cfg sh entries t ek hc hv he
  · intro hc hv
    simp [object_display, hc, hv]
  · intro hc t hv he
    simp [object_display, hc, hv, he]
  · intro hc
    exact object_display_object_plain cfg sh entries hc

/-- A shape classified Other carrying an Int8 view. -/
def shOtherInt8 : Shape :=
  { builtinClass := ESClass.Other, asArray := false, asDate := false,
    asPromise := false, asRegExp := false, asFunction := false,
    asArrayBuffer := false, exceptionIsError := false,
    view := some TypeKind.Int8, source := "" }

/-- A shape classified Object with no view. -/
def shPlainObject : Shape :=
  { builtinClass := ESClass.Object, asArray := false, asDate := false,
    asPromise := false, asRegExp := false, asFunction := false,
    asArrayBuffer := false, exceptionIsError := false,
    view := none, source := "" }

/-- C2 witness: the amended dispatch at a concrete Other shape with an Int8 view and at
a concrete Object shape. -/
theorem c2_only_other_probed_witness :
    object_display cfg0 shOtherInt8 [] = some (format_typed_array ElementKind.int8 cfg0)
    ∧ object_display cfg0 shPlainObject [] = plain_object_display cfg0 [] :=
  ⟨(c2_only_other_probed cfg0 shOtherInt8 []).1 rfl TypeKind.Int8 ElementKind.int8 rfl rfl,
   (c2_only_other_probed cfg0 shPlainObject []).2.2.2 rfl⟩

/-- Helper: every defined plain-object rendering is the placeholder token, the
empty-object token, or starts with the coloured opening brace. -/
theorem plain_object_display_head (cfg : Config) (entries : List (String × JSValue))
    (o : Output) (h : plain_object_display cfg entries = some o) :
    o = [⟨"[Object]", some cfg.colours.object⟩]
    ∨ o = [⟨"\x7b\x7d", some cfg.colours.object⟩]
    ∨ ∃ rest, o = ⟨"\x7b", some cfg.colours.object⟩ :: rest := by
  simp only [plain_object_display] at h
  split at h
  · split at h
    · exact Or.inr (Or.inl (Option.some.inj h).symm)
    · split at h
      · split at h
        · exact absurd h (by simp)
        · exact Or.inr (Or.inr ⟨_, (Option.some.inj h).symm⟩)
      · split at h
        · exact absurd h (by simp)
        · exact Or.inr (Or.inr ⟨_, (Option.some.inj h).symm⟩)
  · exact Or.inl (Option.some.inj h).symm

/-- Helper: no plain-object rendering equals a typed-array rendering. -/
theorem plain_output_ne_typed (ek : ElementKind) (cfg cfg2 : Config)
    (entries : List (String × JSValue)) (o : Output)
    (h : plain_object_display cfg2 entries = some o) :
    o ≠ format_typed_array ek cfg := by
  rcases plain_object_display_head cfg2 entries o h with h1 | h1 | ⟨rest, h1⟩ <;>
    subst h1 <;> cases ek <;> simp [format_typed_array, elementKindName]

/-- C3 counterexample: the element-kind dispatch of the source is a nine-way switch,
not an eight-way one: the enumerated element kinds number nine, are pairwise distinct,
and exhaust the type. -/
theorem c3_eight_kinds_counterexample :
    elementKindList.length = 9
    ∧ elementKindList.length ≠ 8
    ∧ elementKindList.Nodup
    ∧ (∀ ek : ElementKind, ek ∈ elementKindList) := by
  refine ⟨rfl, by decide, by decide, ?_⟩
  intro ek
  cases ek <;> decide

/-- C3 amended: a typed numeric view, classified Other as the engine classifies views,
whose view type is one of the nine element kinds, is routed to the typed-array renderer
of that kind, one branch per kind; the resulting output equals no class-object
rendering and no plain-object rendering, so typed views never take the generic object
path; and the element kinds are a closed set of exactly nine. -/
theorem c3_typed_views_route_typed :
    (∀ (cfg : Config) (sh : Shape) (entries : List (String × JSValue))
        (t : TypeKind) (ek : ElementKind),
      sh.builtinClass = ESClass.Other → sh.view = some t →
      viewElementKind t = some ek →
        object_display cfg sh entries = some (format_typed_array ek cfg)
        ∧ format_typed_array ek cfg ≠ format_class_object cfg
        ∧ (∀ (cfg2 : Config) (entries2 : List (String × JSValue)) (o : Output),
            plain_object_display cfg2 entries2 = some o
            → o ≠ format_typed_array ek cfg))
    ∧ (∀ ek : ElementKind, ek ∈ elementKindList)
    ∧ elementKindList.length = 9
    ∧ elementKindList.Nodup := by
  refine ⟨?_, fun ek => by cases ek <;> decide, rfl, by decide⟩
  intro cfg sh entries t ek hc hv he
  refine ⟨object_display_other_typed cfg sh entries t ek hc hv he, ?_, ?_⟩
  · cases ek <;> simp [format_typed_array, format_class_object, elementKindName]
  · intro cfg2 entries2 o h
    exact plain_output_ne_typed ek cfg cfg2 entries2 o h

/-- C3 witness: the routing at a concrete Other shape with an Int8 view, giving the
Int8 typed-array rendering, distinct from the class-object rendering. -/
theorem c3_typed_views_route_typed_witness :
    object_display cfgD4 shOtherInt8 [] = some (format_typed_array ElementKind.int8 cfgD4)
    ∧ format_typed_array ElementKind.int8 cfgD4 ≠ format_class_object cfgD4 :=
  ⟨(c3_typed_views_route_typed.1 cfgD4 shOtherInt8 [] TypeKind.Int8 ElementKind.int8
      rfl rfl rfl).1,
   (c3_typed_views_route_typed.1 cfgD4 shOtherInt8 [] TypeKind.Int8 ElementKind.int8
      rfl rfl rfl).2.1⟩

/-- Helper: when every enumerated pair renders defined, the multiline loop renders the
concatenation, per key, of the inner indent, the pair, a coloured comma and a newline. -/
theorem multiline_entries_eq (cfg : Config) (colour : Color) (inner : String)
    (keys : List (String × JSValue)) (p : String × JSValue → Output) :
    (∀ kv ∈ keys, write_key_value cfg kv.1 kv.2 = some (p kv)) →
    multiline_entries cfg colour inner keys
      = some ((keys.map (fun kv => ⟨inner, none⟩ :: p kv
          ++ [⟨",", some colour⟩, ⟨NEWLINE, none⟩])).flatten) := by
  induction keys with
  | nil =>
    intro hp
    simp [multiline_entries]
  | cons hd rest ih =>
    obtain ⟨k, v⟩ := hd
    intro hp
    have h1 : write_key_value cfg k v = some (p (k, v)) :=
      hp (k, v) (List.mem_cons_self _ _)
    have h2 := ih (fun kv hkv => hp kv (List.mem_cons_of_mem _ hkv))
    simp [multiline_entries, h1, h2]

/-- C6: a multiline plain object below the depth cap with a nonempty enumeration
renders the opening brace and a newline, then for each enumerated key the indent of
indentation plus depth plus one units, the pair, a trailing comma and a newline, and
closes with the indent of indentation plus depth units and the brace; no elision marker
appears, however many keys lie beyond the iteration cap. -/
theorem c6_multiline_layout :
    ∀ (cfg : Config) (entries keys : List (String × JSValue))
      (p : String × JSValue → Output),
      cfg.depth < 4 → cfg.multiline = true →
      keys = entries.take cfg.iteration → keys ≠ [] →
      (∀ kv ∈ keys, write_key_value cfg kv.1 kv.2 = some (p kv)) →
      plain_object_display cfg entries
        = some (⟨"\x7b", some cfg.colours.object⟩ :: ⟨NEWLINE, none⟩ ::
            (keys.map (fun kv =>
              ⟨strRepeat INDENT (cfg.indentation + cfg.depth + 1), none⟩ :: p kv
                ++ [⟨",", some cfg.colours.object⟩, ⟨NEWLINE, none⟩])).flatten
            ++ [⟨strRepeat INDENT (cfg.indentation + cfg.depth), none⟩,
                ⟨"\x7d", some cfg.colours.object⟩]) := by
  intro cfg entries keys p h4 hml hkeys hne hp
  have hlen : ¬ (entries.take cfg.iteration).length = 0 := by
    rw [← hkeys]
    simpa using hne
  have hbody := multiline_entries_eq cfg cfg.colours.object
      (strRepeat INDENT (cfg.indentation + cfg.depth + 1)) keys p hp
  rw [hkeys] at hbody
  have hit : ¬ cfg.iteration = 0 := fun h0 => hlen (by simp [h0])
  have hent : ¬ entries = [] := fun h0 => hlen (by simp [h0])
  simp [plain_object_display, h4, hml, hlen, hbody, hkeys, hit, hent]

/-- A multiline configuration at depth 0 with a large iteration cap. -/
def cfgML : Config :=
  { depth := 0, indentation := 0, multiline := true, iteration := 100,
    colours := { object := Color.white }, quoted := false }

/-- The rendering of the pair a: 1 under the multiline configuration. -/
def pairAOut : Output :=
  [⟨"a", none⟩, ⟨":", some Color.white⟩, ⟨" ", none⟩, ⟨"1", none⟩]

/-- C6 witness: the one-entry object in multiline mode at depth 0, giving one entry
line indented one unit with a trailing comma and newline, and a closing line with no
indent. -/
theorem c6_multiline_layout_witness :
    plain_object_display cfgML entriesA
      = some [⟨"\x7b", some Color.white⟩, ⟨"\n", none⟩, ⟨"  ", none⟩, ⟨"a", none⟩,
          ⟨":", some Color.white⟩, ⟨" ", none⟩, ⟨"1", none⟩, ⟨",", some Color.white⟩,
          ⟨"\n", none⟩, ⟨"", none⟩, ⟨"\x7d", some Color.white⟩] := by
  have h := c6_multiline_layout cfgML entriesA entriesA (fun kv => pairAOut)
    (by decide) rfl rfl (by simp [entriesA]) ?_
  · rw [h]
    simp [entriesA, pairAOut, strRepeat, INDENT, NEWLINE, cfgML]
    exact ⟨rfl, rfl⟩
  · intro kv hkv
    have hkv2 : kv = ("a", JSValue.vnum 1) := by
      simpa [entriesA] using hkv
    subst hkv2
    simp [write_key_value, format_value, format_key, pairAOut, Config.withDepth,
      Config.withQuoted, cfgML]
    rfl

/-- Helper: in a consistent entry list every value is consistent. -/
theorem entriesConsistent_mem :
    ∀ (entries : List (String × JSValue)), entriesConsistent entries = true →
      ∀ kv ∈ entries, JSValue.consistent kv.2 = true := by
  intro entries
  induction entries with
  | nil =>
    intro h kv hkv
    simp at hkv
  | cons hd rest ih =>
    obtain ⟨k, v⟩ := hd
    intro h kv hkv
    rw [entriesConsistent] at h
    rw [Bool.and_eq_true] at h
    rcases List.mem_cons.mp hkv with heq | hmem
    · subst heq
      exact h.1
    · exact ih h.2 kv hmem

/-- Helper: the multiline loop is defined when every pair write is defined. -/
theorem multiline_entries_isSome :
    ∀ (cfg : Config) (colour : Color) (inner : String)
      (keys : List (String × JSValue)),
      (∀ kv ∈ keys, (write_key_value cfg kv.1 kv.2).isSome = true) →
      (multiline_entries cfg colour inner keys).isSome = true := by
  intro cfg colour inner keys
  induction keys with
  | nil =>
    intro hp
    simp [multiline_entries]
  | cons hd rest ih =>
    obtain ⟨k, v⟩ := hd
    intro hp
    obtain ⟨pair, hpair⟩ :=
      Option.isSome_iff_exists.mp (hp (k, v) (List.mem_cons_self _ _))
    obtain ⟨body, hbody⟩ :=
      Option.isSome_iff_exists.mp (ih (fun kv hkv => hp kv (List.mem_cons_of_mem _ hkv)))
    simp [multiline_entries, hpair, hbody]

/-- Helper: the single-line loop is defined when every pair write is defined. -/
theorem singleline_entries_isSome :
    ∀ (cfg : Config) (colour : Color) (len : Nat)
      (keys : List (String × JSValue)),
      (∀ kv ∈ keys, (write_key_value cfg kv.1 kv.2).isSome = true) →
      ∀ i, (singleline_entries cfg colour len i keys).isSome = true := by
  intro cfg colour len keys
  induction keys with
  | nil =>
    intro hp i
    simp [singleline_entries]
  | cons hd rest ih =>
    obtain ⟨k, v⟩ := hd
    intro hp i
    obtain ⟨pair, hpair⟩ :=
      Option.isSome_iff_exists.mp (hp (k, v) (List.mem_cons_self _ _))
    obtain ⟨body, hbody⟩ :=
      Option.isSome_iff_exists.mp
        (ih (fun kv hkv => hp kv (List.mem_cons_of_mem _ hkv)) (i + 1))
    simp [singleline_entries, hpair, hbody]

/-- Helper: the plain object renderer is defined when every enumerated pair write is
defined. -/
theorem plain_object_display_isSome :
    ∀ (cfg : Config) (entries : List (String × JSValue)),
      (∀ kv ∈ entries.take cfg.iteration,
        (write_key_value cfg kv.1 kv.2).isSome = true) →
      (plain_object_display cfg entries).isSome = true := by
  intro cfg entries hp
  simp only [plain_object_display]
  split
  · split
    · simp
    · split
      · obtain ⟨body, hbody⟩ := Option.isSome_iff_exists.mp
          (multiline_entries_isSome cfg cfg.colours.object
            (strRepeat INDENT (cfg.indentation + cfg.depth + 1))
            (entries.take cfg.iteration) hp)
        rw [hbody]
        simp
      · obtain ⟨body, hbody⟩ := Option.isSome_iff_exists.mp
          (singleline_entries_isSome cfg cfg.colours.object
            (min (entries.take cfg.iteration).length 3)
            (entries.take cfg.iteration) hp 0)
        rw [hbody]
        simp
  · simp

/-- Helper: a deeply consistent value renders defined at every configuration, by
strong induction on the size of the value. -/
theorem format_value_isSome_of_consistent :
    ∀ (n : Nat) (v : JSValue), sizeOf v ≤ n → JSValue.consistent v = true →
      ∀ cfg, (format_value cfg v).isSome = true := by
  intro n
  induction n with
  | zero =>
    intro v hsz
    exfalso
    cases v <;> simp_arith at hsz
  | succ m ih =>
    intro v hsz hc cfg
    cases v with
    | vbool b => simp [format_value]
    | vnum k => simp [format_value]
    | vstr s => simp [format_value]
    | vobj sh entries =>
      rw [JSValue.consistent, Bool.and_eq_true] at hc
      have hwkv : ∀ kv ∈ entries.take cfg.iteration,
          (write_key_value cfg kv.1 kv.2).isSome = true := by
        intro kv hkv
        have hmem : kv ∈ entries := List.take_subset _ _ hkv
        have hcv : JSValue.consistent kv.2 = true :=
          entriesConsistent_mem entries hc.2 kv hmem
        have hszv : sizeOf kv.2 ≤ m := by
          have h1 : sizeOf kv < sizeOf entries := List.sizeOf_lt_of_mem hmem
          have h2 : sizeOf kv.2 < sizeOf kv := by
            obtain ⟨k2, v2⟩ := kv
            simp_arith
          have h3 : sizeOf entries < sizeOf (JSValue.vobj sh entries) := by
            simp_arith
          omega
        obtain ⟨out, hout⟩ := Option.isSome_iff_exists.mp
          (ih kv.2 hszv hcv ((cfg.withDepth (cfg.depth + 1)).withQuoted true))
        simp [write_key_value, hout]
      have hshape := hc.1
      rw [format_value]
      cases hcls : sh.builtinClass
      case Boolean => simp [object_display, hcls]
      case Number => simp [object_display, hcls]
      case String => simp [object_display, hcls]
      case BigInt => simp [object_display, hcls]
      case Array =>
        simp only [shapeConsistent, hcls] at hshape
        simp [object_display, hcls, hshape]
      case Date =>
        simp only [shapeConsistent, hcls] at hshape
        simp [object_display, hcls, hshape]
      case Promise =>
        simp only [shapeConsistent, hcls] at hshape
        simp [object_display, hcls, hshape]
      case RegExp =>
        simp only [shapeConsistent, hcls] at hshape
        simp [object_display, hcls, hshape]
      case Function =>
        simp only [shapeConsistent, hcls] at hshape
        simp [object_display, hcls, hshape]
      case ArrayBuffer =>
        simp only [shapeConsistent, hcls] at hshape
        simp [object_display, hcls, hshape]
      case Error =>
        simp only [shapeConsistent, hcls] at hshape
        simp [object_display, hcls, hshape]
      case Object =>
        rw [object_display_object_plain cfg sh entries hcls]
        exact plain_object_display_isSome cfg entries hwkv
      case Other =>
        cases hv : sh.view with
        | none => simp [object_display, hcls, hv]
        | some t =>
          cases he : viewElementKind t with
          | none => simp [object_display, hcls, hv, he]
          | some ek => simp [object_display, hcls, hv, he]
      case SharedArrayBuffer => simp [object_display, hcls]
      case Set => simp [object_display, hcls]
      case Map => simp [object_display, hcls]
      case Arguments => simp [object_display, hcls]

/-- C9: when every category tag in a value is matched by the actual shape, the
dispatcher reaches no narrowing failure branch anywhere in the render and the render is
defined; conversely a narrowing failure after a category match, here a value classified
Error that does not narrow to an error exception, aborts the render, with no report and
no recovery. -/
theorem c9_narrowing_contract :
    (∀ (cfg : Config) (v : JSValue), JSValue.consistent v = true →
      (format_value cfg v).isSome = true)
    ∧ (∀ (cfg : Config) (sh : Shape) (entries : List (String × JSValue)),
        sh.builtinClass = ESClass.Error → sh.exceptionIsError = false →
        object_display cfg sh entries = none) := by
  constructor
  · intro cfg v hc
    exact format_value_isSome_of_consistent (sizeOf v) v le_rfl hc cfg
  · intro cfg sh entries hcls herr
    simp [object_display, hcls, herr]

/-- A shape classified Error whose exception narrowing fails. -/
def shBadError : Shape :=
  { builtinClass := ESClass.Error, asArray := false, asDate := false,
    asPromise := false, asRegExp := false, asFunction := false,
    asArrayBuffer := false, exceptionIsError := false,
    view := none, source := "" }

/-- C9 witness: a consistent number renders defined, and the inconsistent Error shape
aborts. -/
theorem c9_narrowing_contract_witness :
    (format_value cfg0 (JSValue.vnum 3)).isSome = true
    ∧ object_display cfg0 shBadError [] = none :=
  ⟨c9_narrowing_contract.1 cfg0 (JSValue.vnum 3) (by rw [JSValue.consistent]),
   c9_narrowing_contract.2 cfg0 shBadError [] rfl rfl⟩

end Spiderfire
